import Mathlib

/-!
Verification development for `src/math/linear_program_solver_LPSOLVE.cpp`
(the lp_solve adapter of PolyFit, function `LinearProgramSolver::_solve_LPSOLVE`).

Shallow embedding choices:
* `double` is modelled as `ℚ` (the translation layer only copies and compares
  coefficients; it performs no floating-point arithmetic of its own).
* The external lp_solve engine is an oracle (`EngineOracle`): whether `make_lp`
  succeeds, the raw status code returned by `solve`, and the per-column solution
  values returned by `get_variables` are inputs to the model.
* A run is recorded as the list of engine calls made (`EngineCall`), the raw
  status observed (if `solve` was reached), the final content of the member
  `result_`, and the `bool` value the function returns.
* C++ exceptions: the only statements between `make_lp` and `delete_lp` that can
  throw are standard-library allocations (e.g. `std::vector<double> row(...)` at
  line 45).  The flag `raises` of the run function models such an allocation
  failure at that point; the function's `catch` blocks swallow the exception.
* The `unordered_map` coefficient containers are modelled as association lists
  `List (Nat × ℚ)`; iteration order is the list order, uniqueness of keys is an
  explicit hypothesis where a claim needs it.
-/

set_option synthInstance.maxHeartbeats 1000000

namespace PolyFit

/-- Variable kinds of `Variable<double>` (`variable_type()`). -/
inductive VariableType where
  | CONTINUOUS
  | INTEGER
  | BINARY
deriving DecidableEq

/-- Bound kinds (`bound_type()` of variables and constraints).  The adapter only
compares the tag against `FIXED`/`LOWER`/`UPPER`/`DOUBLE`; `OTHER` stands for
any further enumerator handled by the `default:` branches of the switches. -/
inductive BoundType where
  | FIXED
  | LOWER
  | UPPER
  | DOUBLE
  | OTHER
deriving DecidableEq

/-- A decision variable: kind, bound tag and the two bound values returned by
`get_bound(lb, ub)` when the bound tag is `DOUBLE`. -/
structure Variable where
  variable_type : VariableType
  bound_type : BoundType
  lb : ℚ
  ub : ℚ
deriving DecidableEq

/-- A linear constraint: sparse coefficient map, bound tag, the single bound
`get_bound()` used for `FIXED`/`LOWER`/`UPPER`, and the pair `get_bound(lb, ub)`
used for `DOUBLE`. -/
structure LinearConstraint where
  coefficients : List (Nat × ℚ)
  bound_type : BoundType
  bound : ℚ
  lb : ℚ
  ub : ℚ
deriving DecidableEq

/-- The solver-agnostic model (`LinearProgram`): ordered variables, one sparse
objective, ordered constraints. -/
structure LinearProgram where
  vars : List Variable
  objective : List (Nat × ℚ)
  constraints : List LinearConstraint
deriving DecidableEq

/-- Constraint sense constants of lp_solve (`EQ`, `GE`, `LE`). -/
inductive Sense where
  | EQ
  | GE
  | LE
deriving DecidableEq

/-- One engine call, with the arguments the adapter passes.  `set_bounds` is
lp_solve's bound-registration entry point; it is part of the engine's capability
surface and is needed to state whether explicit variable bounds ever reach the
engine. -/
inductive EngineCall where
  | make_lp (rows cols : Nat)
  | set_verbose
  | set_int (col : Nat)
  | set_binary (col : Nat)
  | set_bounds (col : Nat) (lb ub : ℚ)
  | set_obj_fn (row : List ℚ)
  | resize_lp (rows cols : Nat)
  | set_add_rowmode (mode : Bool)
  | add_constraintex (count : Nat) (row : List ℚ) (colno : List Nat)
      (sense : Sense) (rhs : ℚ)
  | solve
  | get_variables
  | delete_lp
deriving DecidableEq

/-- The external engine as an oracle: does `make_lp` return a handle, which raw
status does `solve` return, and which value does `get_variables` report for the
column of variable `i` (columns are 1-based, so column `i + 1`). -/
structure EngineOracle where
  make_lp_ok : Bool
  status : Int
  solution : Nat → ℚ

/-- Observable outcome of one `_solve_LPSOLVE` run. -/
structure RunResult where
  trace : List EngineCall
  ret : Bool
  result : List ℚ
  status : Option Int
deriving DecidableEq

/-- The dead bound computation of lines 30–33: `lb`/`ub` are initialised to
`0.0`/`1.0` and overwritten by `get_bound(lb, ub)` when the bound tag is
`DOUBLE`.  The computed pair is never passed to the engine. -/
def deadBounds (v : Variable) : ℚ × ℚ :=
  match v.bound_type with
  | BoundType.DOUBLE => (v.lb, v.ub)
  | _ => (0, 1)

/-- Engine calls made for the variable at loop index `i` (lines 35–38): note the
0-based `i` is passed directly to `set_int` / `set_binary`. -/
def varCall (i : Nat) (v : Variable) : List EngineCall :=
  match v.variable_type with
  | VariableType.INTEGER => [EngineCall.set_int i]
  | VariableType.BINARY => [EngineCall.set_binary i]
  | VariableType.CONTINUOUS => []

/-- The variable loop of lines 28–39, starting at index `i`. -/
def variableCalls (i : Nat) : List Variable → List EngineCall
  | [] => []
  | v :: t => varCall i v ++ variableCalls (i + 1) t

/-- Dense objective row of lines 45–54: a vector of `n + 1` zeros (1-based,
entry 0 ignored), then `row[var_idx + 1] = coeff` for each entry of the sparse
map, in iteration order. -/
def buildObjRow (n : Nat) (coeffs : List (Nat × ℚ)) : List ℚ :=
  coeffs.foldl (fun r kc => r.set (kc.1 + 1) kc.2) (List.replicate (n + 1) 0)

/-- 1-based column index list of a sparse map (line 76). -/
def colnoOfList (l : List (Nat × ℚ)) : List Nat :=
  l.map (fun kc => kc.1 + 1)

/-- Coefficient value list of a sparse map (line 77). -/
def valsOfList (l : List (Nat × ℚ)) : List ℚ :=
  l.map (fun kc => kc.2)

/-- `colno` of a constraint. -/
def colnoOf (c : LinearConstraint) : List Nat :=
  colnoOfList c.coefficients

/-- `sparserow` of a constraint. -/
def sparserowOf (c : LinearConstraint) : List ℚ :=
  valsOfList c.coefficients

/-- Engine calls emitted for one constraint by the switch of lines 80–100. -/
def constraintCalls (c : LinearConstraint) : List EngineCall :=
  match c.bound_type with
  | BoundType.FIXED =>
      [EngineCall.add_constraintex (colnoOf c).length (sparserowOf c) (colnoOf c)
        Sense.EQ c.bound]
  | BoundType.LOWER =>
      [EngineCall.add_constraintex (colnoOf c).length (sparserowOf c) (colnoOf c)
        Sense.GE c.bound]
  | BoundType.UPPER =>
      [EngineCall.add_constraintex (colnoOf c).length (sparserowOf c) (colnoOf c)
        Sense.LE c.bound]
  | BoundType.DOUBLE =>
      [EngineCall.add_constraintex (colnoOf c).length (sparserowOf c) (colnoOf c)
        Sense.GE c.lb,
       EngineCall.add_constraintex (colnoOf c).length (sparserowOf c) (colnoOf c)
        Sense.LE c.ub]
  | BoundType.OTHER => []

/-- The constraint loop of lines 66–101, in caller order. -/
def constraintTrace : List LinearConstraint → List EngineCall
  | [] => []
  | c :: t => constraintCalls c ++ constraintTrace t

/-- The result-mapper switch of lines 105–144, as a classification of the raw
status code.  `Success` is the `case 0` branch (solution extraction); each other
listed code selects exactly one diagnostic branch; everything else falls to the
`default:` branch (`Unknown`). -/
inductive Outcome where
  | Success
  | ResourceExhausted
  | SubOptimal
  | Infeasible
  | Unbounded
  | Degenerate
  | NumericFailure
  | Aborted
  | Timeout
  | Unhandled
  | AccuracyError
  | Unknown
deriving DecidableEq

/-- Status-code-to-outcome mapping embedded from the switch of lines 105–144. -/
def mapStatus (r : Int) : Outcome :=
  if r = 0 then Outcome.Success
  else if r = -2 then Outcome.ResourceExhausted
  else if r = 1 then Outcome.SubOptimal
  else if r = 2 then Outcome.Infeasible
  else if r = 3 then Outcome.Unbounded
  else if r = 4 then Outcome.Degenerate
  else if r = 5 then Outcome.NumericFailure
  else if r = 6 then Outcome.Aborted
  else if r = 7 then Outcome.Timeout
  else if r = 9 then Outcome.Unhandled
  else if r = 25 then Outcome.AccuracyError
  else Outcome.Unknown

/-- The whole of `LinearProgramSolver::_solve_LPSOLVE`, lines 7–156.
`raises` models a standard-library allocation failure at line 45 (after the
handle exists); the surrounding `catch` blocks swallow it without freeing the
handle.  `r0` is the content of the member `result_` on entry. -/
def _solve_LPSOLVE (p : LinearProgram) (eng : EngineOracle) (raises : Bool)
    (r0 : List ℚ) : RunResult :=
  if p.vars.isEmpty then
    -- lines 14–17: message to std::cerr, return false, no engine call
    { trace := [], ret := false, result := r0, status := none }
  else
    let n := p.vars.length
    if eng.make_lp_ok = false then
      -- lines 21–24: creation failed, return false
      { trace := [EngineCall.make_lp 0 n], ret := false, result := r0,
        status := none }
    else
      let t1 := EngineCall.make_lp 0 n :: EngineCall.set_verbose ::
        variableCalls 0 p.vars
      if raises then
        -- exception at line 45, caught at 148/151: no delete_lp, return false
        { trace := t1, ret := false, result := r0, status := none }
      else
        let row := buildObjRow n p.objective
        let t2 := t1 ++
          EngineCall.set_obj_fn row ::
          EngineCall.resize_lp p.constraints.length n ::
          EngineCall.set_add_rowmode true ::
          (constraintTrace p.constraints ++
            [EngineCall.set_add_rowmode false, EngineCall.solve])
        if eng.status = 0 then
          -- case 0: result_.resize(n); get_variables(lp, result_.data())
          { trace := t2 ++ [EngineCall.get_variables, EngineCall.delete_lp],
            ret := false,
            result := (List.range n).map eng.solution,
            status := some 0 }
        else
          -- all other statuses: log only, then delete_lp, return false
          { trace := t2 ++ [EngineCall.delete_lp], ret := false, result := r0,
            status := some eng.status }

/-- The sum lp_solve computes from a dense 1-based row over columns `1..n`,
with `x i` the value of variable `i` (column `i + 1`). -/
def denseRowSum (row : List ℚ) (n : Nat) (x : Nat → ℚ) : ℚ :=
  ∑ i ∈ Finset.range n, row.getD (i + 1) 0 * x i

/-- The sum lp_solve computes from a sparse `(colno, sparserow)` pair list. -/
def sparseRowSum (colno : List Nat) (vals : List ℚ) (x : Nat → ℚ) : ℚ :=
  ((colno.zip vals).map (fun cv => cv.2 * x (cv.1 - 1))).sum

/-- The sum computed directly from the sparse coefficient map. -/
def mapSum (l : List (Nat × ℚ)) (x : Nat → ℚ) : ℚ :=
  (l.map (fun kc => kc.2 * x kc.1)).sum

/-- The coefficient an association list assigns to key `k` (0 when absent);
with unique keys this is the content of the `unordered_map` at `k`. -/
def coeffAt : List (Nat × ℚ) → Nat → ℚ
  | [], _ => 0
  | kc :: t, k => if kc.1 = k then kc.2 else coeffAt t k

/-- Concrete model: two continuous variables, objective `x0 + x1`, one UPPER
constraint `x0 + x1 <= 1` (the scenario of spec §8). -/
def twoVarProgram : LinearProgram :=
  ⟨[⟨VariableType.CONTINUOUS, BoundType.OTHER, 0, 0⟩,
    ⟨VariableType.CONTINUOUS, BoundType.OTHER, 0, 0⟩],
   [(0, 1), (1, 1)],
   [⟨[(0, 1), (1, 1)], BoundType.UPPER, 1, 0, 0⟩]⟩

/-- Concrete model: one continuous variable with an explicit DOUBLE bound
`[2, 3]`. -/
def oneVarProgram : LinearProgram :=
  ⟨[⟨VariableType.CONTINUOUS, BoundType.DOUBLE, 2, 3⟩], [(0, 1)], []⟩

/-- Concrete model: one INTEGER variable. -/
def intVarProgram : LinearProgram :=
  ⟨[⟨VariableType.INTEGER, BoundType.OTHER, 0, 0⟩], [(0, 5)], []⟩

/-- Concrete model: one BINARY variable that also carries a DOUBLE bound. -/
def binVarProgram : LinearProgram :=
  ⟨[⟨VariableType.BINARY, BoundType.DOUBLE, 2, 3⟩], [(0, 5)], []⟩

/-- Engine oracle: creation succeeds, solve reports optimal (0), and the value
of the column of variable `i` is `i`. -/
def okEngine : EngineOracle := ⟨true, 0, fun i => (i : ℚ)⟩

/-- Engine oracle: creation succeeds, solve reports infeasible (2). -/
def failEngine : EngineOracle := ⟨true, 2, fun i => (i : ℚ)⟩

/-- A concrete DOUBLE-bounded constraint `1 <= 2 * x0 <= 4`. -/
def cDouble : LinearConstraint := ⟨[(0, 2)], BoundType.DOUBLE, 0, 1, 4⟩

/-- A concrete constraint whose bound tag falls into the `default:` branch. -/
def cOther : LinearConstraint := ⟨[(0, 1)], BoundType.OTHER, 0, 0, 0⟩

/-- A concrete variable assignment for witnesses. -/
def qid : Nat → ℚ := fun i => (i : ℚ)

/-! Helper lemmas about the run function. -/

theorem run_ret_false (p : LinearProgram) (eng : EngineOracle) (b : Bool)
    (r0 : List ℚ) : (_solve_LPSOLVE p eng b r0).ret = false := by
  unfold _solve_LPSOLVE
  by_cases h1 : p.vars = [] <;> by_cases h2 : eng.make_lp_ok <;>
    by_cases h3 : b <;> by_cases h4 : eng.status = 0 <;>
    simp [h1, h2, h3, h4, List.isEmpty_iff]

theorem run_result_eq (p : LinearProgram) (eng : EngineOracle) (b : Bool)
    (r0 : List ℚ) :
    (_solve_LPSOLVE p eng b r0).result =
      if p.vars ≠ [] ∧ eng.make_lp_ok = true ∧ b = false ∧ eng.status = 0 then
        (List.range p.vars.length).map eng.solution
      else r0 := by
  unfold _solve_LPSOLVE
  by_cases h1 : p.vars = [] <;> by_cases h2 : eng.make_lp_ok <;>
    by_cases h3 : b <;> by_cases h4 : eng.status = 0 <;>
    simp [h1, h2, h3, h4, List.isEmpty_iff]

theorem set_bounds_notin_varCall (i : Nat) (v : Variable) (c : Nat) (a b : ℚ) :
    EngineCall.set_bounds c a b ∉ varCall i v := by
  unfold varCall
  cases v.variable_type <;> simp

theorem set_bounds_notin_variableCalls (l : List Variable) (i c : Nat) (a b : ℚ) :
    EngineCall.set_bounds c a b ∉ variableCalls i l := by
  induction l generalizing i with
  | nil => simp [variableCalls]
  | cons v t ih => simp [variableCalls, set_bounds_notin_varCall, ih]

theorem set_bounds_notin_constraintCalls (c : LinearConstraint) (j : Nat)
    (a b : ℚ) : EngineCall.set_bounds j a b ∉ constraintCalls c := by
  unfold constraintCalls
  cases c.bound_type <;> simp

theorem set_bounds_notin_constraintTrace (l : List LinearConstraint) (j : Nat)
    (a b : ℚ) : EngineCall.set_bounds j a b ∉ constraintTrace l := by
  induction l with
  | nil => simp [constraintTrace]
  | cons c t ih => simp [constraintTrace, set_bounds_notin_constraintCalls, ih]

theorem constraintTrace_append (l1 l2 : List LinearConstraint) :
    constraintTrace (l1 ++ l2) = constraintTrace l1 ++ constraintTrace l2 := by
  induction l1 with
  | nil => rfl
  | cons c t ih => simp [constraintTrace, ih]

/-! Claim theorems. -/

/-- Claim C1.  On the optimal status code 0, the code extracts the solution in
variable-index order with length equal to the variable count — but the function
returns `false`, a failure indication, so the caller does not receive a usable
success outcome.  Evaluated on a concrete two-variable model whose engine
reports status 0 with column values 0 and 1. -/
theorem optimal_status_fills_result_but_returns_false :
    (_solve_LPSOLVE twoVarProgram okEngine false []).status = some 0
    ∧ (_solve_LPSOLVE twoVarProgram okEngine false []).result
        = [okEngine.solution 0, okEngine.solution 1]
    ∧ (_solve_LPSOLVE twoVarProgram okEngine false []).result.length
        = twoVarProgram.vars.length
    ∧ (_solve_LPSOLVE twoVarProgram okEngine false []).ret = false :=
  ⟨rfl, rfl, rfl, rfl⟩

/-- Claim C2.  No run of the adapter ever issues a bound-registration call to
the engine: the `lb`/`ub` values read for DOUBLE-bounded variables at lines
30–33 are dead, so explicit variable bounds are never registered, contrary to
the claim. -/
theorem no_variable_bound_ever_registered (p : LinearProgram)
    (eng : EngineOracle) (b : Bool) (r0 : List ℚ) (c : Nat) (lo hi : ℚ) :
    EngineCall.set_bounds c lo hi ∉ (_solve_LPSOLVE p eng b r0).trace := by
  unfold _solve_LPSOLVE
  by_cases h1 : p.vars = [] <;> by_cases h2 : eng.make_lp_ok <;>
    by_cases h3 : b <;> by_cases h4 : eng.status = 0 <;>
    simp [h1, h2, h3, h4, List.isEmpty_iff, set_bounds_notin_variableCalls,
      set_bounds_notin_constraintTrace]

/-- Claim C3.  The adapter's own convention maps variable `k` to engine column
`k + 1` (see `colnoOf` and the objective row), but `set_int`/`set_binary` are
called with the 0-based loop index: for a model whose variable 0 is INTEGER the
trace contains `set_int 0` and not `set_int 1`, so the column of variable 0
(column 1) is never marked; likewise for BINARY. -/
theorem integer_marking_uses_zero_based_column :
    EngineCall.set_int 0 ∈ (_solve_LPSOLVE intVarProgram okEngine false []).trace
    ∧ EngineCall.set_int 1 ∉ (_solve_LPSOLVE intVarProgram okEngine false []).trace
    ∧ EngineCall.set_binary 0 ∈ (_solve_LPSOLVE binVarProgram okEngine false []).trace
    ∧ EngineCall.set_binary 1 ∉ (_solve_LPSOLVE binVarProgram okEngine false []).trace
    ∧ colnoOf ⟨[(0, 5)], BoundType.UPPER, 1, 0, 0⟩ = [1]
    ∧ buildObjRow 1 [(0, 5)] = [0, 5] := by
  decide

/-- Claim C4.  A model with no variables fails (returns `false`) with no engine
call at all: the trace is empty, so no handle is created and no solve is
attempted, and `result_` is untouched. -/
theorem empty_model_returns_false_without_engine_calls (p : LinearProgram)
    (eng : EngineOracle) (b : Bool) (r0 : List ℚ) (h : p.vars = []) :
    _solve_LPSOLVE p eng b r0 = ⟨[], false, r0, none⟩ := by
  unfold _solve_LPSOLVE
  simp [h]

theorem empty_model_witness :
    _solve_LPSOLVE ⟨[], [], []⟩ okEngine false [] = ⟨[], false, [], none⟩ :=
  empty_model_returns_false_without_engine_calls ⟨[], [], []⟩ okEngine false [] rfl

/-- Claim C5.  The result-mapper switch sends each listed raw status code to
exactly one outcome (`-2` out-of-memory, `1` sub-optimal, `2` infeasible, `3`
unbounded, `4` degenerate, `5` numeric failure, `6` abort, `7` timeout, `9`
presolve-solved, `25` accuracy error) and every other nonzero code to the
`default:` branch (`Unknown`), without raising. -/
theorem result_mapper_total_classification :
    mapStatus 0 = Outcome.Success
    ∧ mapStatus (-2) = Outcome.ResourceExhausted
    ∧ mapStatus 1 = Outcome.SubOptimal
    ∧ mapStatus 2 = Outcome.Infeasible
    ∧ mapStatus 3 = Outcome.Unbounded
    ∧ mapStatus 4 = Outcome.Degenerate
    ∧ mapStatus 5 = Outcome.NumericFailure
    ∧ mapStatus 6 = Outcome.Aborted
    ∧ mapStatus 7 = Outcome.Timeout
    ∧ mapStatus 9 = Outcome.Unhandled
    ∧ mapStatus 25 = Outcome.AccuracyError
    ∧ ∀ r : Int, r ∉ ([0, -2, 1, 2, 3, 4, 5, 6, 7, 9, 25] : List Int) →
        mapStatus r = Outcome.Unknown := by
  refine ⟨rfl, rfl, rfl, rfl, rfl, rfl, rfl, rfl, rfl, rfl, rfl, ?_⟩
  intro r hr
  simp only [List.mem_cons, List.not_mem_nil, or_false] at hr
  push_neg at hr
  obtain ⟨h0, h2, h3, h4, h5, h6, h7, h8, h9, h10, h11⟩ := hr
  simp [mapStatus, h0, h2, h3, h4, h5, h6, h7, h8, h9, h10, h11]

theorem result_mapper_unknown_witness : mapStatus 42 = Outcome.Unknown :=
  result_mapper_total_classification.2.2.2.2.2.2.2.2.2.2.2 42 (by decide)

/-- Claim C6.  Row emission follows the constraint's bound tag: FIXED yields
one EQ row, LOWER one GE row, UPPER one LE row, and DOUBLE exactly two rows
with the identical `(colno, sparserow)` pair lists, the first GE the lower
bound and the second LE the upper bound. -/
theorem constraint_rows_follow_bound_kind (c : LinearConstraint) :
    (c.bound_type = BoundType.FIXED →
      constraintCalls c = [EngineCall.add_constraintex (colnoOf c).length
        (sparserowOf c) (colnoOf c) Sense.EQ c.bound])
    ∧ (c.bound_type = BoundType.LOWER →
      constraintCalls c = [EngineCall.add_constraintex (colnoOf c).length
        (sparserowOf c) (colnoOf c) Sense.GE c.bound])
    ∧ (c.bound_type = BoundType.UPPER →
      constraintCalls c = [EngineCall.add_constraintex (colnoOf c).length
        (sparserowOf c) (colnoOf c) Sense.LE c.bound])
    ∧ (c.bound_type = BoundType.DOUBLE →
      constraintCalls c = [EngineCall.add_constraintex (colnoOf c).length
        (sparserowOf c) (colnoOf c) Sense.GE c.lb,
        EngineCall.add_constraintex (colnoOf c).length (sparserowOf c)
          (colnoOf c) Sense.LE c.ub]) := by
  refine ⟨fun h => ?_, fun h => ?_, fun h => ?_, fun h => ?_⟩ <;>
    · unfold constraintCalls
      rw [h]

theorem constraint_rows_double_witness :
    constraintCalls cDouble = [EngineCall.add_constraintex
      (colnoOf cDouble).length (sparserowOf cDouble) (colnoOf cDouble)
      Sense.GE cDouble.lb,
      EngineCall.add_constraintex (colnoOf cDouble).length (sparserowOf cDouble)
        (colnoOf cDouble) Sense.LE cDouble.ub] :=
  (constraint_rows_follow_bound_kind cDouble).2.2.2 rfl

/-- Claim C8.  If an exception is raised after the handle is created (modelled:
the objective-row allocation at line 45 throws), the catch-all blocks swallow
it and the run ends with `make_lp` in the trace but no `delete_lp`: the handle
is not released.  On the normal path `delete_lp` occurs exactly once. -/
theorem exception_after_creation_leaks_handle :
    EngineCall.make_lp 0 1 ∈ (_solve_LPSOLVE oneVarProgram okEngine true []).trace
    ∧ EngineCall.delete_lp ∉ (_solve_LPSOLVE oneVarProgram okEngine true []).trace
    ∧ (_solve_LPSOLVE oneVarProgram okEngine false []).trace.count
        EngineCall.delete_lp = 1 := by
  decide

/-- Claim C9.  On every failure path of a single invocation — nonzero status,
exception, empty model, or failed handle creation — the member `result_` is
never written: starting empty, it stays empty. -/
theorem failure_paths_leave_result_empty (p : LinearProgram)
    (eng : EngineOracle) (b : Bool)
    (h : eng.status ≠ 0 ∨ b = true ∨ p.vars = [] ∨ eng.make_lp_ok = false) :
    (_solve_LPSOLVE p eng b []).result = [] := by
  rw [run_result_eq, if_neg]
  rintro ⟨h1, h2, h3, h4⟩
  rcases h with h | h | h | h <;> simp_all

theorem failure_paths_witness :
    (_solve_LPSOLVE oneVarProgram failEngine false []).result = [] :=
  failure_paths_leave_result_empty oneVarProgram failEngine false
    (Or.inl (by decide))

/-- Claim C10.  A constraint whose bound tag falls into the `default:` branch
emits no row; the remaining constraints are processed unchanged and the
returned value and `result_` are the same as for the model without that
constraint. -/
theorem unknown_constraint_bound_kind_skipped (c : LinearConstraint)
    (vs : List Variable) (obj : List (Nat × ℚ)) (l1 l2 : List LinearConstraint)
    (eng : EngineOracle) (b : Bool) (r0 : List ℚ)
    (h : c.bound_type = BoundType.OTHER) :
    constraintCalls c = []
    ∧ constraintTrace (l1 ++ c :: l2) = constraintTrace (l1 ++ l2)
    ∧ (_solve_LPSOLVE ⟨vs, obj, l1 ++ c :: l2⟩ eng b r0).ret
        = (_solve_LPSOLVE ⟨vs, obj, l1 ++ l2⟩ eng b r0).ret
    ∧ (_solve_LPSOLVE ⟨vs, obj, l1 ++ c :: l2⟩ eng b r0).result
        = (_solve_LPSOLVE ⟨vs, obj, l1 ++ l2⟩ eng b r0).result := by
  have hc : constraintCalls c = [] := by
    unfold constraintCalls
    rw [h]
  refine ⟨hc, ?_, ?_, ?_⟩
  · rw [constraintTrace_append, constraintTrace_append]
    simp [constraintTrace, hc]
  · rw [run_ret_false, run_ret_false]
  · rw [run_result_eq, run_result_eq]

theorem unknown_constraint_witness :
    constraintCalls cOther = []
    ∧ constraintTrace ([] ++ cOther :: []) = constraintTrace ([] ++ [])
    ∧ (_solve_LPSOLVE ⟨oneVarProgram.vars, [], [] ++ cOther :: []⟩ okEngine
        false []).ret
        = (_solve_LPSOLVE ⟨oneVarProgram.vars, [], [] ++ []⟩ okEngine
        false []).ret
    ∧ (_solve_LPSOLVE ⟨oneVarProgram.vars, [], [] ++ cOther :: []⟩ okEngine
        false []).result
        = (_solve_LPSOLVE ⟨oneVarProgram.vars, [], [] ++ []⟩ okEngine
        false []).result :=
  unknown_constraint_bound_kind_skipped cOther oneVarProgram.vars [] [] []
    okEngine false [] rfl

/-! Lemmas for claim C7: the dense objective row and the sparse constraint
rows are coefficient-preserving, independently of map iteration order. -/

theorem foldl_set_getD_of_forall_ne (l : List (Nat × ℚ)) (init : List ℚ)
    (j : Nat) (h : ∀ kc ∈ l, kc.1 + 1 ≠ j) :
    (l.foldl (fun r kc => r.set (kc.1 + 1) kc.2) init).getD j 0
      = init.getD j 0 := by
  induction l generalizing init with
  | nil => rfl
  | cons kc t ih =>
      have h1 : kc.1 + 1 ≠ j := h kc (List.mem_cons_self kc t)
      rw [List.foldl_cons, ih _ (fun a ha => h a (List.mem_cons_of_mem kc ha))]
      simp [List.getD_eq_getElem?_getD, List.getElem?_set_ne h1]

theorem foldl_set_getD_of_mem (l : List (Nat × ℚ)) (init : List ℚ) (k : Nat)
    (c : ℚ) (hnd : (l.map Prod.fst).Nodup) (hmem : (k, c) ∈ l)
    (hlen : k + 1 < init.length) :
    (l.foldl (fun r kc => r.set (kc.1 + 1) kc.2) init).getD (k + 1) 0 = c := by
  induction l generalizing init with
  | nil => cases hmem
  | cons kc t ih =>
      rw [List.map_cons] at hnd
      obtain ⟨hhead, htail⟩ := List.nodup_cons.mp hnd
      rw [List.foldl_cons]
      rcases List.mem_cons.mp hmem with heq | hmemt
      · subst heq
        have hnot : ∀ a ∈ t, a.1 + 1 ≠ k + 1 := by
          intro a ha hEq
          have ha1 : a.1 = k := by omega
          exact hhead (List.mem_map.mpr ⟨a, ha, ha1⟩)
        rw [foldl_set_getD_of_forall_ne t _ _ hnot]
        have hset : k + 1 < init.length := hlen
        simp [List.getD_eq_getElem?_getD, List.getElem?_set_self hset]
      · exact ih (init.set (kc.1 + 1) kc.2) htail hmemt (by simpa using hlen)

theorem coeffAt_of_mem (l : List (Nat × ℚ)) (k : Nat) (c : ℚ)
    (hnd : (l.map Prod.fst).Nodup) (hmem : (k, c) ∈ l) : coeffAt l k = c := by
  induction l with
  | nil => cases hmem
  | cons kc t ih =>
      rw [List.map_cons] at hnd
      obtain ⟨hhead, htail⟩ := List.nodup_cons.mp hnd
      rcases List.mem_cons.mp hmem with heq | hmemt
      · subst heq
        simp [coeffAt]
      · have hne : kc.1 ≠ k := by
          intro hk
          exact hhead (List.mem_map.mpr ⟨(k, c), hmemt, hk.symm⟩)
        simp [coeffAt, hne, ih htail hmemt]

theorem coeffAt_of_not_mem (l : List (Nat × ℚ)) (k : Nat)
    (h : k ∉ l.map Prod.fst) : coeffAt l k = 0 := by
  induction l with
  | nil => rfl
  | cons kc t ih =>
      simp only [List.map_cons, List.mem_cons] at h
      push_neg at h
      have hne : ¬ kc.1 = k := fun hh => h.1 hh.symm
      simp [coeffAt, hne, ih h.2]

theorem buildObjRow_getD (n : Nat) (l : List (Nat × ℚ)) (k : Nat)
    (hnd : (l.map Prod.fst).Nodup) (hk : k < n) :
    (buildObjRow n l).getD (k + 1) 0 = coeffAt l k := by
  by_cases hmem : k ∈ l.map Prod.fst
  · obtain ⟨kc, hkc, hfst⟩ := List.mem_map.mp hmem
    have hm : (k, kc.2) ∈ l := by
      have : kc = (k, kc.2) := by
        rw [← hfst]
      rwa [this] at hkc
    rw [buildObjRow, foldl_set_getD_of_mem l _ k kc.2 hnd hm
      (by simp [List.length_replicate]; omega), coeffAt_of_mem l k kc.2 hnd hm]
  · have hnot : ∀ a ∈ l, a.1 + 1 ≠ k + 1 := by
      intro a ha hEq
      exact hmem (List.mem_map.mpr ⟨a, ha, by omega⟩)
    rw [buildObjRow, foldl_set_getD_of_forall_ne l _ _ hnot,
      coeffAt_of_not_mem l k hmem]
    simp [List.getD_eq_getElem?_getD, List.getElem?_replicate,
      Nat.succ_lt_succ hk]

theorem sum_coeffAt (n : Nat) (l : List (Nat × ℚ)) (x : Nat → ℚ)
    (hnd : (l.map Prod.fst).Nodup) (hlt : ∀ kc ∈ l, kc.1 < n) :
    ∑ i ∈ Finset.range n, coeffAt l i * x i = mapSum l x := by
  induction l with
  | nil => simp [coeffAt, mapSum]
  | cons kc t ih =>
      rw [List.map_cons] at hnd
      obtain ⟨hhead, htail⟩ := List.nodup_cons.mp hnd
      have hk : kc.1 ∈ Finset.range n :=
        Finset.mem_range.mpr (hlt kc (List.mem_cons_self kc t))
      have hpoint : ∀ i, coeffAt (kc :: t) i
          = coeffAt t i + (if kc.1 = i then kc.2 else 0) := by
        intro i
        by_cases hi : kc.1 = i
        · subst hi
          simp [coeffAt, coeffAt_of_not_mem t kc.1 hhead]
        · simp [coeffAt, hi]
      calc ∑ i ∈ Finset.range n, coeffAt (kc :: t) i * x i
          = ∑ i ∈ Finset.range n,
              (coeffAt t i * x i + (if kc.1 = i then kc.2 * x i else 0)) := by
            refine Finset.sum_congr rfl (fun i _ => ?_)
            rw [hpoint i, add_mul]
            congr 1
            split_ifs <;> simp
        _ = (∑ i ∈ Finset.range n, coeffAt t i * x i)
              + ∑ i ∈ Finset.range n, (if kc.1 = i then kc.2 * x i else 0) :=
            Finset.sum_add_distrib
        _ = mapSum t x + kc.2 * x kc.1 := by
            rw [ih htail (fun a ha => hlt a (List.mem_cons_of_mem kc ha)),
              Finset.sum_ite_eq (Finset.range n) kc.1 (fun i => kc.2 * x i),
              if_pos hk]
        _ = mapSum (kc :: t) x := by
            simp [mapSum]
            ring

/-- Claim C7.  Translation is coefficient-preserving: for a sparse map with
unique keys below the variable count, the engine's sum over the translated
dense objective row equals the sum computed directly from the map for every
assignment, the same holds for the sparse `(colno, sparserow)` pair list of a
constraint, and both remain equal for any reordering (permutation) of the map's
iteration order. -/
theorem translation_coefficient_preserving (n : Nat) (l lp : List (Nat × ℚ))
    (x : Nat → ℚ) (hnd : (l.map Prod.fst).Nodup) (hlt : ∀ kc ∈ l, kc.1 < n)
    (hp : l.Perm lp) :
    denseRowSum (buildObjRow n l) n x = mapSum l x
    ∧ sparseRowSum (colnoOfList l) (valsOfList l) x = mapSum l x
    ∧ denseRowSum (buildObjRow n lp) n x = mapSum l x
    ∧ sparseRowSum (colnoOfList lp) (valsOfList lp) x = mapSum l x := by
  have key : ∀ m : List (Nat × ℚ), (m.map Prod.fst).Nodup →
      (∀ kc ∈ m, kc.1 < n) →
      denseRowSum (buildObjRow n m) n x = mapSum m x := by
    intro m hnd' hlt'
    unfold denseRowSum
    rw [← sum_coeffAt n m x hnd' hlt']
    exact Finset.sum_congr rfl (fun i hi => by
      rw [buildObjRow_getD n m i hnd' (Finset.mem_range.mp hi)])
  have sparse : ∀ m : List (Nat × ℚ),
      sparseRowSum (colnoOfList m) (valsOfList m) x = mapSum m x := by
    intro m
    unfold sparseRowSum colnoOfList valsOfList mapSum
    rw [List.zip_map', List.map_map]
    congr 1
  have hndp : (lp.map Prod.fst).Nodup := (hp.map Prod.fst).nodup hnd
  have hltp : ∀ kc ∈ lp, kc.1 < n := fun kc hkc => hlt kc (hp.mem_iff.mpr hkc)
  have hms : mapSum lp x = mapSum l x := by
    unfold mapSum
    exact ((hp.map (fun kc : Nat × ℚ => kc.2 * x kc.1)).sum_eq).symm
  exact ⟨key l hnd hlt, sparse l, (key lp hndp hltp).trans hms,
    (sparse lp).trans hms⟩

theorem translation_preserving_witness :
    denseRowSum (buildObjRow 2 [(0, 3), (1, 4)]) 2 qid
        = mapSum [(0, 3), (1, 4)] qid
    ∧ sparseRowSum (colnoOfList [(0, 3), (1, 4)]) (valsOfList [(0, 3), (1, 4)])
        qid = mapSum [(0, 3), (1, 4)] qid
    ∧ denseRowSum (buildObjRow 2 [(1, 4), (0, 3)]) 2 qid
        = mapSum [(0, 3), (1, 4)] qid
    ∧ sparseRowSum (colnoOfList [(1, 4), (0, 3)]) (valsOfList [(1, 4), (0, 3)])
        qid = mapSum [(0, 3), (1, 4)] qid :=
  translation_coefficient_preserving 2 [(0, 3), (1, 4)] [(1, 4), (0, 3)] qid
    (by decide) (by decide) (List.Perm.swap (1, 4) (0, 3) [])

end PolyFit
